import Mathlib

/-!
Verification of src/analyzer.py (gcdrrtrade/ai-dividends).

The per-symbol pipeline analyze_ticker, the next-payment estimator, the
ex-dividend date formatting, the NaN sanitizer clean_nan and the aggregation
in main are embedded shallowly. Machine floats of the source are modelled as
exact rationals; Python round(x, d) (banker rounding on the decimal value) is
modelled by roundTo.
-/

set_option maxRecDepth 4000

namespace AIDividends

/-- Configuration constant MIN_R_SQUARED = 0.5 (src/analyzer.py line 13). -/
def MIN_R_SQUARED : ℚ := 1/2

/-- Configuration constant MIN_SLOPE = 0.0005 (src/analyzer.py line 14).
In the source this constant is declared in the configuration block but never
read by analyze_ticker, whose gate compares the slope with 0. -/
def MIN_SLOPE : ℚ := 5/10000

/-- Python round-half-to-even on a rational, returning an integer. -/
def bankerRound (q : ℚ) : ℤ :=
  if q - ⌊q⌋ < 1/2 then ⌊q⌋
  else if (1:ℚ)/2 < q - ⌊q⌋ then ⌊q⌋ + 1
  else if ⌊q⌋ % 2 = 0 then ⌊q⌋ else ⌊q⌋ + 1

/-- Python round(q, d): round-half-to-even at d decimal digits. -/
def roundTo (d : ℕ) (q : ℚ) : ℚ := (bankerRound (q * 10 ^ d) : ℚ) / 10 ^ d

/-- Sum of the indices 0, ..., n-1 as rationals: the x data of the
regression, x = np.arange(len(closes)) (src/analyzer.py line 69). -/
def sumIdx (n : ℕ) : ℚ := ∑ i ∈ Finset.range n, (i : ℚ)

/-- Sum of the squared indices. -/
def sumIdxSq (n : ℕ) : ℚ := ∑ i ∈ Finset.range n, (i : ℚ) ^ 2

/-- Element i of the closing-price series (0 past the end; every use keeps
the index in range). -/
def yv (c : List ℚ) (i : ℕ) : ℚ := c.getD i 0

/-- Sum of x values for the series c. -/
def sX (c : List ℚ) : ℚ := sumIdx c.length

/-- Sum of the closing prices. -/
def sY (c : List ℚ) : ℚ := ∑ i ∈ Finset.range c.length, yv c i

/-- Sum of squared x values. -/
def sXX (c : List ℚ) : ℚ := sumIdxSq c.length

/-- Sum of x times y. -/
def sXY (c : List ℚ) : ℚ := ∑ i ∈ Finset.range c.length, (i : ℚ) * yv c i

/-- Sum of squared closing prices. -/
def sYY (c : List ℚ) : ℚ := ∑ i ∈ Finset.range c.length, (yv c i) ^ 2

/-- n times the centered sum of squares of x: n * sum((x - mean x)^2). -/
def dXX (c : List ℚ) : ℚ := c.length * sXX c - sX c ^ 2

/-- n times the centered cross sum: n * sum((x - mean x) * (y - mean y)). -/
def dXY (c : List ℚ) : ℚ := c.length * sXY c - sX c * sY c

/-- n times the centered sum of squares of y. -/
def dYY (c : List ℚ) : ℚ := c.length * sYY c - sY c ^ 2

/-- Least-squares slope of scipy.stats.linregress(x, closes)
(src/analyzer.py line 70): slope = sum((x-mx)(y-my)) / sum((x-mx)^2),
written with both sums scaled by n. The series always has at least 200
points where this is used, so the denominator is nonzero there. -/
def slope (c : List ℚ) : ℚ := dXY c / dXX c

/-- r_value ** 2 of linregress: the squared correlation coefficient.
scipy returns r = 0 when the normalizer is zero; in exact arithmetic the
clip of r to [-1, 1] is the identity (Cauchy-Schwarz). -/
def rSquared (c : List ℚ) : ℚ :=
  if dXX c * dYY c = 0 then 0 else dXY c ^ 2 / (dXX c * dYY c)

/-- The per-symbol raw data that analyze_ticker reads from the provider.
Numeric fields of the info dict are the values after dict.get: none models
a Python None (for dividendYield and dividendRate a missing key yields the
default 0, that is some 0; for exDividendDate a missing key yields none).
dividends is the historical payment series; an exception while reading it
is modelled by the empty list, which the source treats identically
(last_div_amount stays 0). -/
structure TickerData where
  closes : List ℚ
  dividendYield : Option ℚ
  exDividendDate : Option ℤ
  dividendRate : Option ℚ
  dividends : List ℚ
  shortName : Option String
  sector : Option String

/-- The output record built at src/analyzer.py lines 120-136. annual_dividend
carries the raw provider value (none models Python None, serialized null). -/
structure ScoredResult where
  symbol : String
  name : String
  price : ℚ
  slope : ℚ
  r_squared : ℚ
  growth_5y_pct : ℚ
  dividend_yield_pct : ℚ
  ex_div_date : String
  est_next_payment : ℚ
  annual_dividend : Option ℚ
  sector : String
  score : ℚ

/-- Next-payment estimate, src/analyzer.py lines 96-103. The Python guard
is "dividend_rate_annual and dividend_rate_annual > 0": truthy (not None,
not 0) and positive, which for the post-get value r equals 0 < r.getD 0. -/
def estPayment (rate : Option ℚ) (lastDiv : ℚ) : ℚ :=
  if 0 < rate.getD 0 then
    if |lastDiv * 4 - rate.getD 0| < 1/10 then lastDiv
    else roundTo 2 (rate.getD 0 / 4)
  else lastDiv

/-- Calendar date (year, month, day) of a day count relative to 1970-01-01,
proleptic Gregorian (the standard civil-from-days algorithm); models the
date part of datetime.datetime.fromtimestamp under a UTC clock. All
intermediate quantities after the era split are nonnegative, so truncating
integer division agrees with floor division. -/
def civilFromDays (z0 : ℤ) : ℤ × ℤ × ℤ :=
  let z := z0 + 719468
  let era := z.fdiv 146097
  let doe := z - era * 146097
  let yoe := (doe - doe / 1460 + doe / 36524 - doe / 146096) / 365
  let y := yoe + era * 400
  let doy := doe - (365 * yoe + yoe / 4 - yoe / 100)
  let mp := (5 * doy + 2) / 153
  let dday := doy - (153 * mp + 2) / 5 + 1
  let m := mp + (if mp < 10 then 3 else -9)
  (y + (if m ≤ 2 then 1 else 0), m, dday)

/-- Models datetime.datetime.fromtimestamp on an integer epoch timestamp:
returns the calendar date, or an error when the result is outside the
supported datetime range (year 1 to 9999), in which case the library raises
and the exception propagates to the caller. -/
def fromtimestamp (ts : ℤ) : Except Unit (ℤ × ℤ × ℤ) :=
  let d := civilFromDays (ts.fdiv 86400)
  if 1 ≤ d.1 ∧ d.1 ≤ 9999 then Except.ok d else Except.error ()

/-- Zero-pad the decimal form of n to width w. -/
def padZ (w : ℕ) (n : ℕ) : String :=
  let s := toString n
  String.mk (List.replicate (w - s.length) '0') ++ s

/-- strftime with format %Y-%m-%d applied to a date triple. -/
def fmtYmd (d : ℤ × ℤ × ℤ) : String :=
  padZ 4 d.1.toNat ++ "-" ++ padZ 2 d.2.1.toNat ++ "-" ++ padZ 2 d.2.2.toNat

/-- The ex_div_str computation, src/analyzer.py lines 110-113: start from
"N/A"; if the timestamp is truthy (present and nonzero) convert and format
it. A conversion error is returned as such; in analyze_ticker it aborts the
whole symbol via the outer except. -/
def exDivField (ts : Option ℤ) : Except Unit String :=
  match ts with
  | none => Except.ok ("N/A")
  | some t => if t = 0 then Except.ok ("N/A") else (fromtimestamp t).map fmtYmd

/-- The output record of a retained symbol, src/analyzer.py lines 115-136,
assembled from the raw data, with exDivStr the already formatted ex-dividend
field. Python (dividend_yield or 0) maps None and 0.0 to 0 and keeps any
other value, which equals Option.getD 0 on the modelled field. The growth
denominator closes[0] is positive in every run this development evaluates
(numpy would produce a non-finite float for a zero price, not an error). -/
def mkRecord (ticker : String) (d : TickerData) (exDivStr : String) : ScoredResult :=
  let lastDiv := d.dividends.getLast?.getD 0
  let startP := yv d.closes 0
  let endP := d.closes.getLastD 0
  let yEff := d.dividendYield.getD 0
  { symbol := ticker
    name := d.shortName.getD ticker
    price := roundTo 2 endP
    slope := roundTo 4 (slope d.closes)
    r_squared := roundTo 4 (rSquared d.closes)
    growth_5y_pct := roundTo 2 ((endP - startP) / startP * 100)
    dividend_yield_pct := roundTo 2 (yEff * 100)
    ex_div_date := exDivStr
    est_next_payment := roundTo 3 (estPayment d.dividendRate lastDiv)
    annual_dividend := d.dividendRate
    sector := d.sector.getD ("Unknown")
    score := roundTo 1 (rSquared d.closes * 70 + min yEff (1/10) * 300) }

/-- analyze_ticker, src/analyzer.py lines 58-140: reject short series,
reject weak or negative trend (the gate compares the slope with 0, not with
MIN_SLOPE), reject symbols with no dividend evidence (Python falsy yield and
zero last payment), abort on a date conversion error, otherwise build the
record. -/
def analyzeTicker (ticker : String) (d : TickerData) : Option ScoredResult :=
  if d.closes.isEmpty ∨ d.closes.length < 200 then none
  else if slope d.closes ≤ 0 ∨ rSquared d.closes < MIN_R_SQUARED then none
  else if (d.dividendYield = none ∨ d.dividendYield = some 0) ∧
      d.dividends.getLast?.getD 0 = 0 then none
  else
    match exDivField d.exDividendDate with
    | Except.error _ => none
    | Except.ok s => some (mkRecord ticker d s)

-- JSON-like values as serialized by the script: numbers (with the
-- non-finite floats nan, inf, -inf kept as distinct values), strings, null,
-- arrays and objects.
mutual
inductive JVal where
  | num (q : ℚ)
  | nan
  | inf
  | ninf
  | str (s : String)
  | null
  | arr (a : JArr)
  | obj (o : JObj)
inductive JArr where
  | nil
  | cons (hd : JVal) (tl : JArr)
inductive JObj where
  | nil
  | cons (key : String) (val : JVal) (tl : JObj)
end

-- clean_nan, src/analyzer.py lines 176-183: floats that are NaN become
-- None; np.isnan is false on infinities, so they pass through; dicts and
-- lists are cleaned recursively; everything else is returned unchanged.
mutual
/-- clean_nan on a single value. -/
def cleanNan : JVal → JVal
  | JVal.num q => JVal.num q
  | JVal.nan => JVal.null
  | JVal.inf => JVal.inf
  | JVal.ninf => JVal.ninf
  | JVal.str s => JVal.str s
  | JVal.null => JVal.null
  | JVal.arr a => JVal.arr (cleanNanArr a)
  | JVal.obj o => JVal.obj (cleanNanObj o)
def cleanNanArr : JArr → JArr
  | JArr.nil => JArr.nil
  | JArr.cons v tl => JArr.cons (cleanNan v) (cleanNanArr tl)
def cleanNanObj : JObj → JObj
  | JObj.nil => JObj.nil
  | JObj.cons k v tl => JObj.cons k (cleanNan v) (cleanNanObj tl)
end

-- Does a value contain a NaN anywhere.
mutual
/-- NaN occurrence in a value. -/
def hasNan : JVal → Bool
  | JVal.nan => true
  | JVal.arr a => hasNanArr a
  | JVal.obj o => hasNanObj o
  | _ => false
def hasNanArr : JArr → Bool
  | JArr.nil => false
  | JArr.cons v tl => hasNan v || hasNanArr tl
def hasNanObj : JObj → Bool
  | JObj.nil => false
  | JObj.cons _ v tl => hasNan v || hasNanObj tl
end

/-- The per-symbol results of main in submission order, src/analyzer.py
lines 154-170: one analysis per entry of the ticker list, failed symbols
dropped. Completion order of the thread pool is nondeterministic, but every
property settled here (membership, counts, duplicate freedom) is invariant
under permutation of this list. -/
def fetchResults (fetch : String → TickerData) (tickers : List String) : List ScoredResult :=
  tickers.filterMap fun t => analyzeTicker t (fetch t)

/-- results.sort(key=score, reverse=True), src/analyzer.py line 173: stable
descending sort by score. -/
def sortByScore (rs : List ScoredResult) : List ScoredResult :=
  rs.mergeSort fun a b => decide (b.score ≤ a.score)

/-- The data list of the output envelope: analyzed, filtered, sorted. -/
def mainData (fetch : String → TickerData) (tickers : List String) : List ScoredResult :=
  sortByScore (fetchResults fetch tickers)

/-- Modelled from the spec: the gating predicates of section 4.4 that are
absent from src/analyzer.py (the other rewrites of the pipeline in the
repository implement them): market capitalization below a configured floor,
or beta above a configured ceiling when available, drop the symbol. -/
def capBetaGate (marketCap : ℚ) (capFloor : ℚ) (beta : Option ℚ) (betaCeil : ℚ) : Bool :=
  decide (capFloor ≤ marketCap) &&
    (match beta with
     | none => true
     | some b => decide (b ≤ betaCeil))

/-- Modelled from the spec: analyze_ticker preceded by the market-cap and
beta gates of section 4.4. -/
def gatedAnalyze (marketCap capFloor : ℚ) (beta : Option ℚ) (betaCeil : ℚ)
    (ticker : String) (d : TickerData) : Option ScoredResult :=
  if capBetaGate marketCap capFloor beta betaCeil then analyzeTicker ticker d else none

/-- The spec formula of claim C1, written from the words of the spec:
clamp(r2 * 70 + min(yield_pct, 10) * 3, 0, 100). -/
def clampSpecScore (r2 yieldPct : ℚ) : ℚ :=
  max 0 (min 100 (r2 * 70 + min yieldPct 10 * 3))

/-- An arithmetically linear closing series a, a + b, a + 2b, ... of n
points. -/
def linList (a b : ℚ) (n : ℕ) : List ℚ := (List.range n).map fun (i : ℕ) => a + b * (i : ℚ)

/-- Does a string have the shape YYYY-MM-DD: ten characters, digits with
dashes at positions 4 and 7. -/
def isDateShape (s : String) : Bool :=
  match s.data with
  | [c1, c2, c3, c4, d1, c5, c6, d2, c7, c8] =>
    c1.isDigit && c2.isDigit && c3.isDigit && c4.isDigit && d1 = '-' &&
      c5.isDigit && c6.isDigit && d2 = '-' && c7.isDigit && c8.isDigit
  | _ => false

/-- The scaled centered sum of squares of the indices 0, ..., n-1:
n * sumIdxSq n - (sumIdx n)^2; the x part of the regression denominators. -/
def DD (n : ℕ) : ℚ := n * sumIdxSq n - sumIdx n ^ 2

/-- The scenario input of the spec: 260 closing prices rising linearly from
100 to 150 (step 50/259), fractional yield 0.025, a historical payment of
0.50, no ex-dividend timestamp. -/
def dScen : TickerData :=
  { closes := linList 100 (50/259) 260
    dividendYield := some (1/40)
    exDividendDate := none
    dividendRate := some 0
    dividends := [1/2]
    shortName := none
    sector := none }

/-- The scenario input with fractional yield 0.0251 instead: the raw score
70 + 7.53 = 77.53 is not a multiple of 0.1, so rounding shows. -/
def dCexC1 : TickerData :=
  { closes := linList 100 (50/259) 260
    dividendYield := some (251/10000)
    exDividendDate := none
    dividendRate := some 0
    dividends := [1/2]
    shortName := none
    sector := none }

/-- A 200-point series rising linearly with slope 0.0003: perfectly linear
(r squared 1) but with a slope at or below MIN_SLOPE = 0.0005. -/
def dC2 : TickerData :=
  { closes := linList 100 (3/10000) 200
    dividendYield := some (1/50)
    exDividendDate := none
    dividendRate := some 0
    dividends := [1/2]
    shortName := none
    sector := none }

/-- A well-trending series whose provider yield is the garbage value -1 and
whose dividend history is empty: Python truthiness keeps it. -/
def dC6 : TickerData :=
  { closes := linList 100 1 200
    dividendYield := some (-1)
    exDividendDate := none
    dividendRate := some 0
    dividends := []
    shortName := none
    sector := none }

/-- A fully healthy symbol whose ex-dividend timestamp is absurdly large:
fromtimestamp raises, the outer except swallows it, the symbol is dropped. -/
def dC8bad : TickerData :=
  { closes := linList 100 1 200
    dividendYield := some (1/50)
    exDividendDate := some (10 ^ 18)
    dividendRate := some 0
    dividends := [1/2]
    shortName := none
    sector := none }

/-- The same symbol with no timestamp at all: retained with field N/A. -/
def dC8none : TickerData :=
  { closes := linList 100 1 200
    dividendYield := some (1/50)
    exDividendDate := none
    dividendRate := some 0
    dividends := [1/2]
    shortName := none
    sector := none }

/-- A symbol whose fundamentals carry no dividend yield (Python None) but
whose history shows a positive last payment of 0.30. -/
def dC10 : TickerData :=
  { closes := linList 100 1 200
    dividendYield := none
    exDividendDate := none
    dividendRate := some 0
    dividends := [3/10]
    shortName := none
    sector := none }

/-- A three-point series: too short for analysis whatever the rest says. -/
def dShort : TickerData :=
  { closes := [100, 101, 102]
    dividendYield := some (1/20)
    exDividendDate := none
    dividendRate := some 2
    dividends := [1/2]
    shortName := none
    sector := none }

/-- A provider oracle returning the same healthy data for every symbol:
models the same base symbol being reachable twice in the resolved universe. -/
def fetchDup : String → TickerData := fun _ => dC8none

/-- Rounding down: when the fractional part is below one half the rounded
value is the floor. -/
lemma bankerRound_eq_down (q : ℚ) (f : ℤ) (h1 : (f : ℚ) ≤ q) (h2 : q - f < 1/2) :
    bankerRound q = f := by
  have hf : ⌊q⌋ = f := Int.floor_eq_iff.mpr ⟨h1, by linarith⟩
  unfold bankerRound
  rw [hf, if_pos (by linarith)]

/-- Rounding up: when the fractional part is above one half the rounded
value is the floor plus one. -/
lemma bankerRound_eq_up (q : ℚ) (f : ℤ) (h1 : (f : ℚ) ≤ q) (h2 : 1/2 < q - f)
    (h3 : q < f + 1) : bankerRound q = f + 1 := by
  have hf : ⌊q⌋ = f := Int.floor_eq_iff.mpr ⟨h1, by linarith⟩
  unfold bankerRound
  rw [hf, if_neg (by linarith), if_pos (by linarith)]

/-- Half-to-even ties: an exact half above an even floor rounds down. -/
lemma bankerRound_eq_half_even (q : ℚ) (f : ℤ) (h2 : q - f = 1/2) (h3 : f % 2 = 0) :
    bankerRound q = f := by
  have hf : ⌊q⌋ = f := Int.floor_eq_iff.mpr ⟨by linarith, by linarith⟩
  unfold bankerRound
  rw [hf, if_neg (by linarith), if_neg (by linarith), if_pos h3]

/-- Python round(q, d) evaluated in the rounded-down case. -/
lemma roundTo_eq_down (d : ℕ) (q : ℚ) (f : ℤ) (h1 : (f : ℚ) ≤ q * 10 ^ d)
    (h2 : q * 10 ^ d - f < 1/2) : roundTo d q = f / 10 ^ d := by
  unfold roundTo
  rw [bankerRound_eq_down (q * 10 ^ d) f h1 h2]

/-- Python round(q, d) evaluated in the rounded-up case. -/
lemma roundTo_eq_up (d : ℕ) (q : ℚ) (f : ℤ) (h1 : (f : ℚ) ≤ q * 10 ^ d)
    (h2 : 1/2 < q * 10 ^ d - f) (h3 : q * 10 ^ d < f + 1) :
    roundTo d q = (f + 1) / 10 ^ d := by
  unfold roundTo
  rw [bankerRound_eq_up (q * 10 ^ d) f h1 h2 h3]
  push_cast
  ring

/-- Python round(q, d) evaluated at an exact tie over an even floor. -/
lemma roundTo_eq_half_even (d : ℕ) (q : ℚ) (f : ℤ) (h2 : q * 10 ^ d - f = 1/2)
    (h3 : f % 2 = 0) : roundTo d q = f / 10 ^ d := by
  unfold roundTo
  rw [bankerRound_eq_half_even (q * 10 ^ d) f h2 h3]

/-- The rounded value never drops below an integer lower bound of the
argument. -/
lemma le_bankerRound (q : ℚ) (B : ℤ) (h : (B : ℚ) ≤ q) : B ≤ bankerRound q := by
  have hfl : B ≤ ⌊q⌋ := Int.le_floor.mpr h
  unfold bankerRound
  split_ifs <;> omega

/-- The rounded value never exceeds an integer upper bound of the
argument. -/
lemma bankerRound_le (q : ℚ) (B : ℤ) (h : q ≤ B) : bankerRound q ≤ B := by
  have hfl : ⌊q⌋ ≤ B := by
    have := Int.floor_le_floor h
    simpa using this
  have hq : (⌊q⌋ : ℚ) ≤ q := Int.floor_le q
  unfold bankerRound
  split_ifs with hA hB hC
  · exact hfl
  · rcases lt_or_eq_of_le hfl with hlt | heq
    · omega
    · exfalso
      rw [heq] at hB hq
      linarith
  · exact hfl
  · rcases lt_or_eq_of_le hfl with hlt | heq
    · omega
    · exfalso
      push_neg at hA hB
      have : q - (⌊q⌋ : ℚ) = 1/2 := le_antisymm hB hA
      rw [heq] at this
      linarith

/-- round(q, d) of a nonnegative value is nonnegative. -/
lemma roundTo_nonneg (d : ℕ) (q : ℚ) (h : 0 ≤ q) : 0 ≤ roundTo d q := by
  unfold roundTo
  apply div_nonneg _ (by positivity)
  have : (0 : ℤ) ≤ bankerRound (q * 10 ^ d) :=
    le_bankerRound _ 0 (by positivity)
  exact_mod_cast this

/-- round(q, d) of a value at most the integer B is at most B. -/
lemma roundTo_le_int (d : ℕ) (q : ℚ) (B : ℤ) (h : q ≤ B) : roundTo d q ≤ B := by
  unfold roundTo
  rw [div_le_iff₀ (by positivity)]
  have hb : bankerRound (q * 10 ^ d) ≤ B * 10 ^ d := by
    apply bankerRound_le
    push_cast
    have hp : (0 : ℚ) < 10 ^ d := by positivity
    calc q * 10 ^ d ≤ (B : ℚ) * 10 ^ d := by
          exact mul_le_mul_of_nonneg_right h hp.le
      _ = (B : ℚ) * 10 ^ d := rfl
  calc (bankerRound (q * 10 ^ d) : ℚ) ≤ ((B * 10 ^ d : ℤ) : ℚ) := by exact_mod_cast hb
    _ = (B : ℚ) * 10 ^ d := by push_cast; ring

/-- Scaled centered sum of squares: for any n values,
n * (n * sum f^2 - (sum f)^2) is a sum of squares. -/
lemma centered_sq (n : ℕ) (f : ℕ → ℚ) :
    (n : ℚ) * ((n : ℚ) * (∑ i ∈ Finset.range n, f i ^ 2) -
        (∑ i ∈ Finset.range n, f i) ^ 2) =
      ∑ i ∈ Finset.range n, ((n : ℚ) * f i - ∑ j ∈ Finset.range n, f j) ^ 2 := by
  have h : ∀ i ∈ Finset.range n,
      ((n : ℚ) * f i - ∑ j ∈ Finset.range n, f j) ^ 2 =
        (n : ℚ) ^ 2 * f i ^ 2 -
          (2 * (n : ℚ) * ∑ j ∈ Finset.range n, f j) * f i +
          (∑ j ∈ Finset.range n, f j) ^ 2 := by
    intro i _
    ring
  rw [Finset.sum_congr rfl h, Finset.sum_add_distrib, Finset.sum_sub_distrib,
    ← Finset.mul_sum, ← Finset.mul_sum, Finset.sum_const, Finset.card_range,
    nsmul_eq_mul]
  ring

/-- Scaled centered cross sum: the analogous identity for products of two
sequences. -/
lemma centered_mul (n : ℕ) (f g : ℕ → ℚ) :
    (n : ℚ) * ((n : ℚ) * (∑ i ∈ Finset.range n, f i * g i) -
        (∑ i ∈ Finset.range n, f i) * (∑ i ∈ Finset.range n, g i)) =
      ∑ i ∈ Finset.range n, ((n : ℚ) * f i - ∑ j ∈ Finset.range n, f j) *
        ((n : ℚ) * g i - ∑ j ∈ Finset.range n, g j) := by
  have h : ∀ i ∈ Finset.range n,
      ((n : ℚ) * f i - ∑ j ∈ Finset.range n, f j) *
          ((n : ℚ) * g i - ∑ j ∈ Finset.range n, g j) =
        (n : ℚ) ^ 2 * (f i * g i) -
          ((n : ℚ) * ∑ j ∈ Finset.range n, g j) * f i -
          ((n : ℚ) * ∑ j ∈ Finset.range n, f j) * g i +
          (∑ j ∈ Finset.range n, f j) * ∑ j ∈ Finset.range n, g j := by
    intro i _
    ring
  rw [Finset.sum_congr rfl h, Finset.sum_add_distrib, Finset.sum_sub_distrib,
    Finset.sum_sub_distrib, ← Finset.mul_sum, ← Finset.mul_sum, ← Finset.mul_sum,
    Finset.sum_const, Finset.card_range, nsmul_eq_mul]
  ring

/-- The x normalizer is nonnegative. -/
lemma dXX_nonneg (c : List ℚ) : 0 ≤ dXX c := by
  rcases Nat.eq_zero_or_pos c.length with h0 | hpos
  · simp [dXX, sX, sXX, h0, sumIdx, sumIdxSq]
  · have hid := centered_sq c.length fun i => (i : ℚ)
    have hsum : 0 ≤ ∑ i ∈ Finset.range c.length,
        ((c.length : ℚ) * i - ∑ j ∈ Finset.range c.length, (j : ℚ)) ^ 2 :=
      Finset.sum_nonneg fun i _ => sq_nonneg _
    have hn : (0 : ℚ) < c.length := by exact_mod_cast hpos
    have : 0 ≤ (c.length : ℚ) * dXX c := by
      rw [dXX, sX, sXX, sumIdx, sumIdxSq]
      rw [hid] at *
      exact hsum
    nlinarith [this, hn]

/-- The y normalizer is nonnegative. -/
lemma dYY_nonneg (c : List ℚ) : 0 ≤ dYY c := by
  rcases Nat.eq_zero_or_pos c.length with h0 | hpos
  · simp [dYY, sY, sYY, h0]
  · have hid := centered_sq c.length (yv c)
    have hsum : 0 ≤ ∑ i ∈ Finset.range c.length,
        ((c.length : ℚ) * yv c i - ∑ j ∈ Finset.range c.length, yv c j) ^ 2 :=
      Finset.sum_nonneg fun i _ => sq_nonneg _
    have hn : (0 : ℚ) < c.length := by exact_mod_cast hpos
    have : 0 ≤ (c.length : ℚ) * dYY c := by
      rw [dYY, sY, sYY]
      rw [hid] at *
      exact hsum
    nlinarith [this, hn]

/-- Cauchy-Schwarz for the regression sums: the squared cross term is
bounded by the product of the two normalizers. -/
lemma sq_dXY_le (c : List ℚ) : dXY c ^ 2 ≤ dXX c * dYY c := by
  rcases Nat.eq_zero_or_pos c.length with h0 | hpos
  · simp [dXX, dXY, dYY, sX, sXX, sY, sYY, sXY, h0, sumIdx, sumIdxSq]
  · set n := c.length with hn
    have hcs := Finset.sum_mul_sq_le_sq_mul_sq (Finset.range n)
      (fun i => (n : ℚ) * i - ∑ j ∈ Finset.range n, (j : ℚ))
      (fun i => (n : ℚ) * yv c i - ∑ j ∈ Finset.range n, yv c j)
    have hxy := centered_mul n (fun i => (i : ℚ)) (yv c)
    have hxx := centered_sq n fun i => (i : ℚ)
    have hyy := centered_sq n (yv c)
    have exy : (n : ℚ) * dXY c = ∑ i ∈ Finset.range n,
        ((n : ℚ) * i - ∑ j ∈ Finset.range n, (j : ℚ)) *
          ((n : ℚ) * yv c i - ∑ j ∈ Finset.range n, yv c j) := by
      rw [dXY, sX, sXY, sY, sumIdx, ← hn]
      exact hxy
    have exx : (n : ℚ) * dXX c = ∑ i ∈ Finset.range n,
        ((n : ℚ) * i - ∑ j ∈ Finset.range n, (j : ℚ)) ^ 2 := by
      rw [dXX, sX, sXX, sumIdx, sumIdxSq, ← hn]
      exact hxx
    have eyy : (n : ℚ) * dYY c = ∑ i ∈ Finset.range n,
        ((n : ℚ) * yv c i - ∑ j ∈ Finset.range n, yv c j) ^ 2 := by
      rw [dYY, sY, sYY, ← hn]
      exact hyy
    have hineq : ((n : ℚ) * dXY c) ^ 2 ≤ ((n : ℚ) * dXX c) * ((n : ℚ) * dYY c) := by
      rw [exy, exx, eyy]
      exact hcs
    have hnq : (0 : ℚ) < (n : ℚ) ^ 2 := by
      have : (0 : ℚ) < n := by exact_mod_cast hpos
      positivity
    nlinarith [hineq, hnq]

/-- r squared is nonnegative. -/
lemma rSquared_nonneg (c : List ℚ) : 0 ≤ rSquared c := by
  unfold rSquared
  split
  · exact le_refl 0
  · exact div_nonneg (sq_nonneg _) (mul_nonneg (dXX_nonneg c) (dYY_nonneg c))

/-- r squared is at most one. -/
lemma rSquared_le_one (c : List ℚ) : rSquared c ≤ 1 := by
  unfold rSquared
  split
  · exact zero_le_one
  · rename_i h
    have hpos : 0 < dXX c * dYY c :=
      lt_of_le_of_ne (mul_nonneg (dXX_nonneg c) (dYY_nonneg c)) (Ne.symm h)
    rw [div_le_one hpos]
    exact sq_dXY_le c

/-- Length of the linear series. -/
lemma linList_length (a b : ℚ) (n : ℕ) : (linList a b n).length = n := by
  rw [linList, List.length_map, List.length_range]

/-- Elements of the linear series. -/
lemma yv_linList (a b : ℚ) {n i : ℕ} (h : i < n) :
    yv (linList a b n) i = a + b * i := by
  rw [yv, linList, List.getD_eq_getElem?_getD, List.getElem?_map,
    List.getElem?_range h, Option.map_some', Option.getD_some]

/-- Sum of the linear series. -/
lemma sY_linList (a b : ℚ) (n : ℕ) :
    sY (linList a b n) = n * a + b * sumIdx n := by
  rw [sY, linList_length]
  rw [Finset.sum_congr rfl fun i hi => yv_linList a b (Finset.mem_range.mp hi)]
  rw [Finset.sum_add_distrib, Finset.sum_const, Finset.card_range, nsmul_eq_mul,
    ← Finset.mul_sum, sumIdx]

/-- Cross sum of the linear series. -/
lemma sXY_linList (a b : ℚ) (n : ℕ) :
    sXY (linList a b n) = a * sumIdx n + b * sumIdxSq n := by
  rw [sXY, linList_length]
  have h : ∀ i ∈ Finset.range n, (i : ℚ) * yv (linList a b n) i =
      a * i + b * (i : ℚ) ^ 2 := by
    intro i hi
    rw [yv_linList a b (Finset.mem_range.mp hi)]
    ring
  rw [Finset.sum_congr rfl h, Finset.sum_add_distrib, ← Finset.mul_sum,
    ← Finset.mul_sum, sumIdx, sumIdxSq]

/-- Squared sum of the linear series. -/
lemma sYY_linList (a b : ℚ) (n : ℕ) :
    sYY (linList a b n) = n * a ^ 2 + 2 * a * b * sumIdx n + b ^ 2 * sumIdxSq n := by
  rw [sYY, linList_length]
  have h : ∀ i ∈ Finset.range n, yv (linList a b n) i ^ 2 =
      a ^ 2 + (2 * a * b) * i + b ^ 2 * (i : ℚ) ^ 2 := by
    intro i hi
    rw [yv_linList a b (Finset.mem_range.mp hi)]
    ring
  rw [Finset.sum_congr rfl h, Finset.sum_add_distrib, Finset.sum_add_distrib,
    ← Finset.mul_sum, ← Finset.mul_sum, Finset.sum_const, Finset.card_range,
    nsmul_eq_mul, sumIdx, sumIdxSq]

/-- x normalizer of the linear series. -/
lemma dXX_linList (a b : ℚ) (n : ℕ) : dXX (linList a b n) = DD n := by
  rw [dXX, sX, sXX, linList_length, DD]

/-- Cross normalizer of the linear series. -/
lemma dXY_linList (a b : ℚ) (n : ℕ) : dXY (linList a b n) = b * DD n := by
  rw [dXY, sX, linList_length, sXY_linList, sY_linList, DD]
  ring

/-- y normalizer of the linear series. -/
lemma dYY_linList (a b : ℚ) (n : ℕ) : dYY (linList a b n) = b ^ 2 * DD n := by
  rw [dYY, linList_length, sYY_linList, sY_linList, DD]
  ring

/-- The index sum is positive from two points on. -/
lemma sumIdx_pos {n : ℕ} (h : 2 ≤ n) : 0 < sumIdx n := by
  rw [sumIdx]
  apply Finset.sum_pos' (fun i _ => by positivity)
  exact ⟨1, Finset.mem_range.mpr (by omega), by norm_num⟩

/-- The x normalizer is positive from two points on. -/
lemma DD_pos {n : ℕ} (h : 2 ≤ n) : 0 < DD n := by
  have hid := centered_sq n fun i => (i : ℚ)
  have hterm : (0 - ∑ j ∈ Finset.range n, (j : ℚ)) ^ 2 ≤
      ∑ i ∈ Finset.range n, ((n : ℚ) * i - ∑ j ∈ Finset.range n, (j : ℚ)) ^ 2 := by
    have h0 : (0 : ℕ) ∈ Finset.range n := Finset.mem_range.mpr (by omega)
    have := Finset.single_le_sum
      (fun (i : ℕ) (_ : i ∈ Finset.range n) =>
        sq_nonneg ((n : ℚ) * i - ∑ j ∈ Finset.range n, (j : ℚ))) h0
    simpa using this
  have hS : 0 < sumIdx n := sumIdx_pos h
  have hn : (0 : ℚ) < n := by
    have : (0 : ℕ) < n := by omega
    exact_mod_cast this
  have hpos : 0 < (n : ℚ) * DD n := by
    rw [DD, sumIdx, sumIdxSq]
    rw [hid]
    calc (0 : ℚ) < sumIdx n ^ 2 := by positivity
      _ = (0 - ∑ j ∈ Finset.range n, (j : ℚ)) ^ 2 := by rw [sumIdx]; ring
      _ ≤ _ := hterm
  nlinarith [hpos, hn]

/-- Slope of the linear series. -/
lemma slope_linList (a b : ℚ) {n : ℕ} (h : 2 ≤ n) : slope (linList a b n) = b := by
  rw [slope, dXY_linList, dXX_linList, mul_div_assoc, div_self (DD_pos h).ne', mul_one]

/-- r squared of a nondegenerate linear series is exactly one. -/
lemma rSquared_linList (a b : ℚ) {n : ℕ} (h : 2 ≤ n) (hb : b ≠ 0) :
    rSquared (linList a b n) = 1 := by
  rw [rSquared, dXX_linList, dXY_linList, dYY_linList]
  have hDD := DD_pos h
  have hne : DD n * (b ^ 2 * DD n) ≠ 0 := by positivity
  rw [if_neg hne]
  field_simp
  ring

/-- analyze_ticker on a symbol passing every gate produces the record. -/
lemma analyzeTicker_eq_some (t : String) (d : TickerData) (s : String)
    (h200 : 200 ≤ d.closes.length)
    (hslp : 0 < slope d.closes)
    (hr2 : MIN_R_SQUARED ≤ rSquared d.closes)
    (hdiv : ¬((d.dividendYield = none ∨ d.dividendYield = some 0) ∧
      d.dividends.getLast?.getD 0 = 0))
    (hex : exDivField d.exDividendDate = Except.ok s) :
    analyzeTicker t d = some (mkRecord t d s) := by
  unfold analyzeTicker
  have h1 : ¬(d.closes.isEmpty = true ∨ d.closes.length < 200) := by
    simp only [List.isEmpty_iff_length_eq_zero, not_or, not_lt]
    omega
  have h2 : ¬(slope d.closes ≤ 0 ∨ rSquared d.closes < MIN_R_SQUARED) := by
    push_neg
    exact ⟨hslp, hr2⟩
  rw [if_neg h1, if_neg h2, if_neg hdiv, hex]

/-- Inversion: a record can only come out of analyze_ticker when every gate
passed, and then it is exactly the built record. -/
lemma analyzeTicker_inv (t : String) (d : TickerData) (r : ScoredResult)
    (h : analyzeTicker t d = some r) :
    200 ≤ d.closes.length ∧ 0 < slope d.closes ∧
      MIN_R_SQUARED ≤ rSquared d.closes ∧
      ¬((d.dividendYield = none ∨ d.dividendYield = some 0) ∧
        d.dividends.getLast?.getD 0 = 0) ∧
      ∃ s, exDivField d.exDividendDate = Except.ok s ∧ r = mkRecord t d s := by
  unfold analyzeTicker at h
  split_ifs at h with h1 h2 h3
  cases hm : exDivField d.exDividendDate with
  | error e =>
    rw [hm] at h
    simp at h
  | ok s =>
    rw [hm] at h
    simp only [Option.some_inj] at h
    push_neg at h1 h2
    refine ⟨?_, h2.1, h2.2, h3, s, rfl, h.symm⟩
    have := h1.2
    omega

/-- The score field of the built record, as the source computes it. -/
lemma mkRecord_score (t : String) (d : TickerData) (s : String) :
    (mkRecord t d s).score =
      roundTo 1 (rSquared d.closes * 70 + min (d.dividendYield.getD 0) (1/10) * 300) :=
  rfl

/-- The symbol field of the built record is the input ticker. -/
lemma mkRecord_symbol (t : String) (d : TickerData) (s : String) :
    (mkRecord t d s).symbol = t :=
  rfl

/-- The ex-dividend field of the built record. -/
lemma mkRecord_ex_div (t : String) (d : TickerData) (s : String) :
    (mkRecord t d s).ex_div_date = s :=
  rfl

/-- The yield percentage field of the built record. -/
lemma mkRecord_yield_pct (t : String) (d : TickerData) (s : String) :
    (mkRecord t d s).dividend_yield_pct = roundTo 2 (d.dividendYield.getD 0 * 100) :=
  rfl

/-- The estimated payment field of the built record. -/
lemma mkRecord_est (t : String) (d : TickerData) (s : String) :
    (mkRecord t d s).est_next_payment =
      roundTo 3 (estPayment d.dividendRate (d.dividends.getLast?.getD 0)) :=
  rfl

/-- Scaling between the fractional and the percentage form of the yield
term of the score. -/
lemma min_pct (y : ℚ) : min (y * 100) 10 * 3 = min y (1/10) * 300 := by
  rcases le_total y (1/10) with hy | hy
  · rw [min_eq_left (by linarith), min_eq_left hy]
    ring
  · rw [min_eq_right (by linarith), min_eq_right hy]
    norm_num

/-- analyze_ticker on a strictly increasing linear series passing the
dividend gate and the date conversion produces the record. -/
lemma analyzeTicker_linList (t : String) (d : TickerData) (s : String) {a b : ℚ}
    {n : ℕ} (hc : d.closes = linList a b n) (hn : 200 ≤ n) (hb : 0 < b)
    (hdiv : ¬((d.dividendYield = none ∨ d.dividendYield = some 0) ∧
      d.dividends.getLast?.getD 0 = 0))
    (hex : exDivField d.exDividendDate = Except.ok s) :
    analyzeTicker t d = some (mkRecord t d s) := by
  have h2 : (2 : ℕ) ≤ n := by omega
  apply analyzeTicker_eq_some t d s _ _ _ hdiv hex
  · rw [hc, linList_length]
    exact hn
  · rw [hc, slope_linList a b h2]
    exact hb
  · rw [hc, rSquared_linList a b h2 hb.ne', MIN_R_SQUARED]
    norm_num

/-- Estimator, consistent case: a positive rate close to four times the
last payment keeps the last payment. -/
lemma estPayment_close (r l : ℚ) (hr : 0 < r) (hcl : |l * 4 - r| < 1/10) :
    estPayment (some r) l = l := by
  unfold estPayment
  simp only [Option.getD_some]
  rw [if_pos hr, if_pos hcl]

/-- Estimator, inconsistent case: a positive rate far from four times the
last payment is divided by four and rounded to cents. -/
lemma estPayment_far (r l : ℚ) (hr : 0 < r) (hf : ¬|l * 4 - r| < 1/10) :
    estPayment (some r) l = roundTo 2 (r / 4) := by
  unfold estPayment
  simp only [Option.getD_some]
  rw [if_pos hr, if_neg hf]

/-- Estimator, no rate: the last payment is kept as is. -/
lemma estPayment_none (l : ℚ) : estPayment none l = l := by
  unfold estPayment
  simp

/-- Estimator, nonpositive rate (Python falsy zero or a negative value):
the last payment is kept as is. -/
lemma estPayment_nonpos (r l : ℚ) (hr : r ≤ 0) : estPayment (some r) l = l := by
  unfold estPayment
  simp only [Option.getD_some]
  rw [if_neg (not_lt.mpr hr)]

mutual
/-- The sanitizer leaves no NaN in a value. -/
theorem hasNan_cleanNan : ∀ v : JVal, hasNan (cleanNan v) = false
  | JVal.num _ => by simp [cleanNan, hasNan]
  | JVal.nan => by simp [cleanNan, hasNan]
  | JVal.inf => by simp [cleanNan, hasNan]
  | JVal.ninf => by simp [cleanNan, hasNan]
  | JVal.str _ => by simp [cleanNan, hasNan]
  | JVal.null => by simp [cleanNan, hasNan]
  | JVal.arr a => by
    rw [cleanNan, hasNan]
    exact hasNanArr_cleanNanArr a
  | JVal.obj o => by
    rw [cleanNan, hasNan]
    exact hasNanObj_cleanNanObj o
/-- The sanitizer leaves no NaN in an array. -/
theorem hasNanArr_cleanNanArr : ∀ a : JArr, hasNanArr (cleanNanArr a) = false
  | JArr.nil => by simp [cleanNanArr, hasNanArr]
  | JArr.cons v tl => by
    rw [cleanNanArr, hasNanArr, hasNan_cleanNan v, hasNanArr_cleanNanArr tl]
    rfl
/-- The sanitizer leaves no NaN in an object. -/
theorem hasNanObj_cleanNanObj : ∀ o : JObj, hasNanObj (cleanNanObj o) = false
  | JObj.nil => by simp [cleanNanObj, hasNanObj]
  | JObj.cons k v tl => by
    rw [cleanNanObj, hasNanObj, hasNan_cleanNan v, hasNanObj_cleanNanObj tl]
    rfl
end

/-- Retained records carry the ticker they were analyzed for. -/
lemma analyzeTicker_symbol (t : String) (d : TickerData) (r : ScoredResult)
    (h : analyzeTicker t d = some r) : r.symbol = t := by
  obtain ⟨-, -, -, -, s, -, hr⟩ := analyzeTicker_inv t d r h
  rw [hr, mkRecord_symbol]

/-- The symbol column of the pre-sort result list is a sublist of the
ticker universe. -/
lemma symbols_sublist (fetch : String → TickerData) (tickers : List String) :
    (((fetchResults fetch tickers).map fun r => r.symbol)).Sublist tickers := by
  induction tickers with
  | nil => simp [fetchResults]
  | cons t ts ih =>
    rw [fetchResults, List.filterMap_cons]
    cases hm : analyzeTicker t (fetch t) with
    | none =>
      simp only [hm]
      exact (ih : _).cons t
    | some r =>
      simp only [hm, List.map_cons]
      rw [analyzeTicker_symbol t (fetch t) r hm]
      exact (ih : _).cons₂ t

/-- The sorted output is a permutation of the pre-sort result list. -/
lemma mainData_perm (fetch : String → TickerData) (tickers : List String) :
    (mainData fetch tickers).Perm (fetchResults fetch tickers) :=
  List.mergeSort_perm (fetchResults fetch tickers) _

/-- The timestamp 1700000000 converts to 2023-11-14. -/
lemma fromtimestamp_1700000000 : fromtimestamp 1700000000 = Except.ok (2023, 11, 14) := by
  rfl

/-- An absurdly large timestamp fails the conversion. -/
lemma fromtimestamp_huge : fromtimestamp (10 ^ 18) = Except.error () := by
  rfl

/-- analyze_ticker on a linear series whose date conversion fails yields
nothing: the exception propagates to the outer handler. -/
lemma analyzeTicker_exdiv_err (t : String) (d : TickerData)
    (h200 : 200 ≤ d.closes.length)
    (hslp : 0 < slope d.closes)
    (hr2 : MIN_R_SQUARED ≤ rSquared d.closes)
    (hdiv : ¬((d.dividendYield = none ∨ d.dividendYield = some 0) ∧
      d.dividends.getLast?.getD 0 = 0))
    (hex : exDivField d.exDividendDate = Except.error ()) :
    analyzeTicker t d = none := by
  unfold analyzeTicker
  have h1 : ¬(d.closes.isEmpty = true ∨ d.closes.length < 200) := by
    simp only [List.isEmpty_iff_length_eq_zero, not_or, not_lt]
    omega
  have h2 : ¬(slope d.closes ≤ 0 ∨ rSquared d.closes < MIN_R_SQUARED) := by
    push_neg
    exact ⟨hslp, hr2⟩
  rw [if_neg h1, if_neg h2, if_neg hdiv, hex]

/-- Evaluation of the spec scenario input. -/
lemma dScen_eval : analyzeTicker ("SCN") dScen = some (mkRecord ("SCN") dScen ("N/A")) :=
  analyzeTicker_linList ("SCN") dScen ("N/A") rfl (by norm_num) (by norm_num)
    (by norm_num [dScen]) rfl

/-- Evaluation of the C1 counterexample input. -/
lemma dCexC1_eval : analyzeTicker ("CEX") dCexC1 = some (mkRecord ("CEX") dCexC1 ("N/A")) :=
  analyzeTicker_linList ("CEX") dCexC1 ("N/A") rfl (by norm_num) (by norm_num)
    (by norm_num [dCexC1]) rfl

/-- Evaluation of the weak-slope input of C2. -/
lemma dC2_eval : analyzeTicker ("SLP") dC2 = some (mkRecord ("SLP") dC2 ("N/A")) :=
  analyzeTicker_linList ("SLP") dC2 ("N/A") rfl (by norm_num) (by norm_num)
    (by norm_num [dC2]) rfl

/-- Evaluation of the negative-yield input of C6. -/
lemma dC6_eval : analyzeTicker ("NEG") dC6 = some (mkRecord ("NEG") dC6 ("N/A")) := by
  apply analyzeTicker_linList ("NEG") dC6 ("N/A") rfl (by norm_num) (by norm_num) _ rfl
  simp only [dC6]
  rintro ⟨h | h, -⟩
  · exact Option.noConfusion h
  · rw [Option.some_inj] at h
    norm_num at h

/-- Evaluation of the healthy no-timestamp input, for any ticker. -/
lemma dC8none_eval (t : String) :
    analyzeTicker t dC8none = some (mkRecord t dC8none ("N/A")) :=
  analyzeTicker_linList t dC8none ("N/A") rfl (by norm_num) (by norm_num)
    (by norm_num [dC8none]) rfl

/-- Rounding zero at any precision gives zero. -/
lemma roundTo_zero (d : ℕ) : roundTo d 0 = 0 := by
  rw [roundTo_eq_down d 0 0 (by norm_num) (by norm_num)]
  norm_num

/-- C4: a candidate whose price series has fewer than 200 observations (the
empty series included) yields no result, whatever its other fields hold; the
function returns before the regression is consulted. -/
theorem claim4_short_series (t : String) (d : TickerData)
    (h : d.closes.length < 200) : analyzeTicker t d = none := by
  unfold analyzeTicker
  rw [if_pos (Or.inr h)]

/-- C4 witness: the three-point series is dropped. -/
theorem claim4_witness :
    dShort.closes.length < 200 ∧ analyzeTicker ("SHR") dShort = none :=
  ⟨by norm_num [dShort], claim4_short_series ("SHR") dShort (by norm_num [dShort])⟩

/-- C5 corrected: the three estimation cases hold, except that in the
inconsistent-rate case the code returns one quarter of the rate rounded to
two decimals (half to even), not the exact quarter; both concrete scenarios
of the claim hold. -/
theorem claim5_next_payment :
    (∀ r l : ℚ, 0 < r → |l * 4 - r| < 1/10 → estPayment (some r) l = l) ∧
    (∀ r l : ℚ, 0 < r → ¬|l * 4 - r| < 1/10 →
      estPayment (some r) l = roundTo 2 (r / 4)) ∧
    (∀ l : ℚ, estPayment none l = l) ∧
    estPayment (some 4) (101/100) = 101/100 ∧
    estPayment (some 5) (101/100) = 125/100 := by
  refine ⟨estPayment_close, estPayment_far, estPayment_none, ?_, ?_⟩
  · exact estPayment_close 4 (101/100) (by norm_num)
      (by rw [abs_of_nonneg (by norm_num)]; norm_num)
  · rw [estPayment_far 5 (101/100) (by norm_num)
      (by rw [abs_of_nonpos (by norm_num)]; norm_num)]
    rw [roundTo_eq_down 2 (5/4) 125 (by norm_num) (by norm_num)]
    norm_num

/-- C5 counterexample: rate 0.50, last payment 1.00: the code estimates
round(0.125, 2) = 0.12, not the exact quarter 0.125 the claim states. -/
theorem claim5_counterexample :
    estPayment (some (1/2)) 1 = 12/100 ∧ (12/100 : ℚ) ≠ (1/2) / 4 := by
  constructor
  · rw [estPayment_far (1/2) 1 (by norm_num)
      (by rw [abs_of_nonneg (by norm_num)]; norm_num)]
    rw [roundTo_eq_half_even 2 ((1/2) / 4) 12 (by norm_num) (by norm_num)]
    norm_num
  · norm_num

/-- C5 witness: the inconsistent case applied at rate 7, last payment 1. -/
theorem claim5_witness :
    (0 : ℚ) < 7 ∧ ¬|(1 : ℚ) * 4 - 7| < 1/10 ∧
      estPayment (some 7) 1 = roundTo 2 (7 / 4) := by
  have h1 : (0 : ℚ) < 7 := by norm_num
  have h2 : ¬|(1 : ℚ) * 4 - 7| < 1/10 := by
    rw [abs_of_nonpos (by norm_num)]
    norm_num
  exact ⟨h1, h2, claim5_next_payment.2.1 7 1 h1 h2⟩

/-- C7 corrected: the sanitizer replaces every NaN by the null marker, so
no NaN survives anywhere in the cleaned value; infinite values however pass
through unchanged (np.isnan is false on them). -/
theorem claim7_sanitize :
    (∀ v : JVal, hasNan (cleanNan v) = false) ∧
    cleanNan JVal.inf = JVal.inf ∧ cleanNan JVal.ninf = JVal.ninf ∧
    cleanNan JVal.nan = JVal.null :=
  ⟨hasNan_cleanNan, by simp [cleanNan], by simp [cleanNan], by simp [cleanNan]⟩

/-- C7 counterexample: an infinite score field is not replaced by null. -/
theorem claim7_counterexample :
    cleanNan (JVal.obj (JObj.cons ("score") JVal.inf JObj.nil)) =
      JVal.obj (JObj.cons ("score") JVal.inf JObj.nil) ∧
    JVal.inf ≠ JVal.null := by
  constructor
  · simp [cleanNan, cleanNanObj]
  · intro h
    exact JVal.noConfusion h

/-- C1 corrected: for every retained symbol the score equals the spec
expression r2 * 70 + min(yield_pct, 10) * 3 rounded to one decimal (the
code applies round(x, 1), which the claim omits, and no clamp), and the
score never exceeds 100; the lower bound 0 holds exactly when the provider
yield is nonnegative, and fails for a retained negative-yield symbol (see
the counterexample); the concrete 260-point scenario scores exactly 77.5. -/
theorem claim1_score :
    (∀ (t : String) (d : TickerData) (r : ScoredResult),
        analyzeTicker t d = some r →
        r.score = roundTo 1 (rSquared d.closes * 70 +
          min (d.dividendYield.getD 0 * 100) 10 * 3) ∧
        r.score ≤ 100 ∧
        (0 ≤ d.dividendYield.getD 0 → 0 ≤ r.score)) ∧
    (analyzeTicker ("SCN") dScen).map (fun r => r.score) = some (155/2) := by
  constructor
  · intro t d r h
    obtain ⟨-, -, -, -, s, -, hr⟩ := analyzeTicker_inv t d r h
    rw [hr, mkRecord_score]
    have hminle : min (d.dividendYield.getD 0) (1/10) ≤ 1/10 := min_le_right _ _
    have h100 : rSquared d.closes * 70 +
        min (d.dividendYield.getD 0) (1/10) * 300 ≤ 100 := by
      nlinarith [rSquared_le_one d.closes, rSquared_nonneg d.closes]
    refine ⟨by rw [min_pct], ?_, ?_⟩
    · have := roundTo_le_int 1 _ 100 (by exact_mod_cast h100)
      exact_mod_cast this
    · intro hy
      have hmin0 : 0 ≤ min (d.dividendYield.getD 0) (1/10) := le_min hy (by norm_num)
      have h0 : 0 ≤ rSquared d.closes * 70 +
          min (d.dividendYield.getD 0) (1/10) * 300 := by
        nlinarith [rSquared_nonneg d.closes]
      exact roundTo_nonneg _ _ h0
  · rw [dScen_eval, Option.map_some', mkRecord_score,
      show dScen.closes = linList 100 (50/259) 260 from rfl,
      rSquared_linList 100 (50/259) (by norm_num) (by norm_num),
      show dScen.dividendYield.getD 0 = 1/40 from rfl,
      min_eq_left (by norm_num : (1/40 : ℚ) ≤ 1/10),
      roundTo_eq_down 1 (1 * 70 + 1/40 * 300) 775 (by norm_num) (by norm_num)]
    norm_num

/-- C1 witness: the general part applied at the scenario input, with the
nonnegative-yield implication discharged there. -/
theorem claim1_witness :
    analyzeTicker ("SCN") dScen = some (mkRecord ("SCN") dScen ("N/A")) ∧
    0 ≤ dScen.dividendYield.getD 0 ∧
    ((mkRecord ("SCN") dScen ("N/A")).score =
        roundTo 1 (rSquared dScen.closes * 70 +
          min (dScen.dividendYield.getD 0 * 100) 10 * 3) ∧
      (mkRecord ("SCN") dScen ("N/A")).score ≤ 100 ∧
      (0 ≤ dScen.dividendYield.getD 0 →
        0 ≤ (mkRecord ("SCN") dScen ("N/A")).score)) := by
  have hy : (0 : ℚ) ≤ dScen.dividendYield.getD 0 := by
    norm_num [dScen, Option.getD_some]
  exact ⟨dScen_eval, hy,
    claim1_score.1 ("SCN") dScen (mkRecord ("SCN") dScen ("N/A")) dScen_eval⟩

/-- C1 counterexample, both failures of the claim as stated: at fractional
yield 0.0251 the retained score is 77.5 while the clamp formula gives 77.53
(the code rounds to one decimal), and the retained garbage-yield symbol of
dC6 (yield -1, a retention claim6_counterexample also exhibits) scores
-230, violating 0 <= score. -/
theorem claim1_counterexample :
    (analyzeTicker ("CEX") dCexC1).map (fun r => r.score) = some (155/2) ∧
    clampSpecScore (rSquared dCexC1.closes) (dCexC1.dividendYield.getD 0 * 100) =
      7753/100 ∧
    (155/2 : ℚ) ≠ 7753/100 ∧
    (analyzeTicker ("NEG") dC6).map (fun r => r.score) = some (-230) ∧
    ¬(0 ≤ (-230 : ℚ)) := by
  refine ⟨?_, ?_, by norm_num, ?_, by norm_num⟩
  · rw [dCexC1_eval, Option.map_some', mkRecord_score,
      show dCexC1.closes = linList 100 (50/259) 260 from rfl,
      rSquared_linList 100 (50/259) (by norm_num) (by norm_num),
      show dCexC1.dividendYield.getD 0 = 251/10000 from rfl,
      min_eq_left (by norm_num : (251/10000 : ℚ) ≤ 1/10),
      roundTo_eq_down 1 (1 * 70 + 251/10000 * 300) 775 (by norm_num) (by norm_num)]
    norm_num
  · rw [show dCexC1.closes = linList 100 (50/259) 260 from rfl,
      rSquared_linList 100 (50/259) (by norm_num) (by norm_num),
      show dCexC1.dividendYield.getD 0 = 251/10000 from rfl, clampSpecScore]
    norm_num [min_def, max_def]
  · rw [dC6_eval, Option.map_some', mkRecord_score,
      show dC6.closes = linList 100 1 200 from rfl,
      rSquared_linList 100 1 (by norm_num) (by norm_num),
      show dC6.dividendYield.getD 0 = -1 from rfl,
      min_eq_left (by norm_num : (-1 : ℚ) ≤ 1/10),
      roundTo_eq_down 1 (1 * 70 + -1 * 300) (-2300) (by norm_num) (by norm_num)]
    norm_num

/-- C2: the claim is right and the code wrong: MIN_SLOPE = 0.0005 is
declared in the configuration block but the gate compares the slope with 0,
so this perfectly linear 200-point series of slope 0.0003 (at or below the
configured minimum) is retained and scored instead of dropped. The
r-squared half of the gate does use MIN_R_SQUARED. -/
theorem claim2_min_slope_unused :
    slope dC2.closes = 3/10000 ∧ slope dC2.closes ≤ MIN_SLOPE ∧
    MIN_R_SQUARED ≤ rSquared dC2.closes ∧
    analyzeTicker ("SLP") dC2 = some (mkRecord ("SLP") dC2 ("N/A")) := by
  have hc : dC2.closes = linList 100 (3/10000) 200 := rfl
  have hs : slope dC2.closes = 3/10000 := by
    rw [hc, slope_linList 100 (3/10000) (by norm_num)]
  refine ⟨hs, ?_, ?_, dC2_eval⟩
  · rw [hs, MIN_SLOPE]
    norm_num
  · rw [hc, rSquared_linList 100 (3/10000) (by norm_num) (by norm_num), MIN_R_SQUARED]
    norm_num

/-- C6 corrected: the gate tests Python truthiness, not positivity: every
retained symbol has a non-falsy yield or a nonzero last payment, and when
the provider data is nonnegative this is exactly the positivity the claim
states; a negative provider yield however passes the gate with no positive
dividend evidence, see the counterexample. -/
theorem claim6_dividend_presence :
    ∀ (t : String) (d : TickerData) (r : ScoredResult),
      analyzeTicker t d = some r →
      (¬(d.dividendYield = none ∨ d.dividendYield = some 0) ∨
        d.dividends.getLast?.getD 0 ≠ 0) ∧
      (0 ≤ d.dividendYield.getD 0 → 0 ≤ d.dividends.getLast?.getD 0 →
        (0 < d.dividendYield.getD 0 ∨ 0 < d.dividends.getLast?.getD 0)) := by
  intro t d r h
  obtain ⟨-, -, -, hdiv, -⟩ := analyzeTicker_inv t d r h
  rw [not_and_or] at hdiv
  have hdiv' : ¬(d.dividendYield = none ∨ d.dividendYield = some 0) ∨
      d.dividends.getLast?.getD 0 ≠ 0 := hdiv
  refine ⟨hdiv', ?_⟩
  intro hy hl
  rcases hdiv' with hA | hB
  · left
    cases hcase : d.dividendYield with
    | none => exact absurd (Or.inl hcase) hA
    | some v =>
      have hv : v ≠ 0 := fun h0 => hA (Or.inr (by rw [hcase, h0]))
      rw [hcase] at hy
      simp only [Option.getD_some] at hy ⊢
      exact lt_of_le_of_ne hy (Ne.symm hv)
  · right
    exact lt_of_le_of_ne hl (Ne.symm hB)

/-- C6 witness: the truthiness statement applied at a healthy input. -/
theorem claim6_witness :
    analyzeTicker ("WIT") dC8none = some (mkRecord ("WIT") dC8none ("N/A")) ∧
    ((¬(dC8none.dividendYield = none ∨ dC8none.dividendYield = some 0) ∨
        dC8none.dividends.getLast?.getD 0 ≠ 0) ∧
      (0 ≤ dC8none.dividendYield.getD 0 → 0 ≤ dC8none.dividends.getLast?.getD 0 →
        (0 < dC8none.dividendYield.getD 0 ∨ 0 < dC8none.dividends.getLast?.getD 0))) :=
  ⟨dC8none_eval ("WIT"),
    claim6_dividend_presence ("WIT") dC8none _ (dC8none_eval ("WIT"))⟩

/-- C6 counterexample: the garbage yield -1 with an empty dividend history
is retained, yet neither a positive yield nor a positive last payment
holds. -/
theorem claim6_counterexample :
    (analyzeTicker ("NEG") dC6).isSome = true ∧
    ¬(0 < dC6.dividendYield.getD 0 ∨ 0 < dC6.dividends.getLast?.getD 0) := by
  constructor
  · rw [dC6_eval]
    rfl
  · norm_num [dC6, Option.getD_some]

/-- C8 corrected: a retained record carries the formatted date of a
present, nonzero, convertible timestamp, and exactly N/A when the timestamp
is absent (or zero); but when the conversion fails the symbol is dropped
entirely, it is not kept with N/A; timestamp 1700000000 formats to
2023-11-14, which matches YYYY-MM-DD. -/
theorem claim8_ex_div :
    (∀ (t : String) (d : TickerData) (r : ScoredResult) (ts y m dd : ℤ),
        analyzeTicker t d = some r → d.exDividendDate = some ts → ts ≠ 0 →
        fromtimestamp ts = Except.ok (y, m, dd) →
        r.ex_div_date = fmtYmd (y, m, dd)) ∧
    (∀ (t : String) (d : TickerData) (r : ScoredResult),
        analyzeTicker t d = some r →
        (d.exDividendDate = none ∨ d.exDividendDate = some 0) →
        r.ex_div_date = "N/A") ∧
    (∀ (t : String) (d : TickerData) (ts : ℤ),
        d.exDividendDate = some ts → fromtimestamp ts = Except.error () →
        analyzeTicker t d = none) ∧
    exDivField (some 1700000000) = Except.ok ("2023-11-14") ∧
    isDateShape ("2023-11-14") = true := by
  refine ⟨?_, ?_, ?_, ?_, ?_⟩
  · intro t d r ts y m dd h hts hts0 hconv
    obtain ⟨-, -, -, -, s, hex, hr⟩ := analyzeTicker_inv t d r h
    rw [hts] at hex
    simp only [exDivField, if_neg hts0, hconv, Except.map, Except.ok.injEq] at hex
    rw [hr, mkRecord_ex_div, ← hex]
  · intro t d r h hor
    obtain ⟨-, -, -, -, s, hex, hr⟩ := analyzeTicker_inv t d r h
    rcases hor with hc | hc <;> rw [hc] at hex
    · rw [show exDivField none = Except.ok ("N/A") from rfl] at hex
      rw [hr, mkRecord_ex_div, ← Except.ok.inj hex]
    · rw [show exDivField (some (0 : ℤ)) = Except.ok ("N/A") from rfl] at hex
      rw [hr, mkRecord_ex_div, ← Except.ok.inj hex]
  · intro t d ts hts herr
    unfold analyzeTicker
    split_ifs
    · rfl
    · rfl
    · rfl
    · rcases eq_or_ne ts 0 with h0 | h0
      · exfalso
        rw [h0] at herr
        have hok : fromtimestamp 0 = Except.ok ((1970 : ℤ), (1 : ℤ), (1 : ℤ)) := rfl
        rw [hok] at herr
        exact Except.noConfusion herr
      · have hfield : exDivField d.exDividendDate = Except.error () := by
          rw [hts]
          simp only [exDivField, if_neg h0, herr, Except.map]
        rw [hfield]
  · rfl
  · rfl

/-- C8 witness: the absent-timestamp case at a healthy input. -/
theorem claim8_witness :
    analyzeTicker ("WT8") dC8none = some (mkRecord ("WT8") dC8none ("N/A")) ∧
    (dC8none.exDividendDate = none ∨ dC8none.exDividendDate = some 0) ∧
    (mkRecord ("WT8") dC8none ("N/A")).ex_div_date = "N/A" :=
  ⟨dC8none_eval ("WT8"), Or.inl rfl,
    claim8_ex_div.2.1 ("WT8") dC8none _ (dC8none_eval ("WT8")) (Or.inl rfl)⟩

/-- C8 counterexample: the timestamp 10^18 makes the conversion fail and
the whole symbol is dropped, while the identical input without a timestamp
is retained: a conversion failure does not produce an N/A record. -/
theorem claim8_counterexample :
    analyzeTicker ("BAD") dC8bad = none ∧
    dC8bad.exDividendDate = some (10 ^ 18) ∧
    (analyzeTicker ("BAD") dC8none).isSome = true := by
  refine ⟨?_, rfl, by rw [dC8none_eval]; rfl⟩
  have hc : dC8bad.closes = linList 100 1 200 := rfl
  apply analyzeTicker_exdiv_err ("BAD") dC8bad
  · rw [hc, linList_length]
  · rw [hc, slope_linList 100 1 (by norm_num)]
    norm_num
  · rw [hc, rSquared_linList 100 1 (by norm_num) (by norm_num), MIN_R_SQUARED]
    norm_num
  · norm_num [dC8bad]
  · rfl

/-- C10 confirmed: a missing or None dividend yield with a positive last
historical payment is retained (when the other gates pass), the output
yield field is exactly 0, and the score carries no yield contribution. -/
theorem claim10_missing_yield :
    ∀ (t : String) (d : TickerData) (s : String),
      (d.dividendYield = none ∨ d.dividendYield = some 0) →
      0 < d.dividends.getLast?.getD 0 →
      200 ≤ d.closes.length →
      0 < slope d.closes →
      MIN_R_SQUARED ≤ rSquared d.closes →
      exDivField d.exDividendDate = Except.ok s →
      analyzeTicker t d = some (mkRecord t d s) ∧
      (mkRecord t d s).dividend_yield_pct = 0 ∧
      (mkRecord t d s).score = roundTo 1 (rSquared d.closes * 70) := by
  intro t d s hy hl h200 hslp hr2 hex
  have hy0 : d.dividendYield.getD 0 = 0 := by
    rcases hy with h | h <;> rw [h] <;> rfl
  refine ⟨analyzeTicker_eq_some t d s h200 hslp hr2 ?_ hex, ?_, ?_⟩
  · rintro ⟨-, hzero⟩
    exact absurd hzero (ne_of_gt hl)
  · rw [mkRecord_yield_pct, hy0, zero_mul, roundTo_zero]
  · rw [mkRecord_score, hy0, min_eq_left (by norm_num : (0 : ℚ) ≤ 1/10),
      zero_mul, add_zero]

/-- C10 witness: the statement applied at the None-yield input with last
payment 0.30. -/
theorem claim10_witness :
    (dC10.dividendYield = none ∨ dC10.dividendYield = some 0) ∧
    0 < dC10.dividends.getLast?.getD 0 ∧
    (analyzeTicker ("W10") dC10 = some (mkRecord ("W10") dC10 ("N/A")) ∧
      (mkRecord ("W10") dC10 ("N/A")).dividend_yield_pct = 0 ∧
      (mkRecord ("W10") dC10 ("N/A")).score = roundTo 1 (rSquared dC10.closes * 70)) := by
  have h1 : dC10.dividendYield = none ∨ dC10.dividendYield = some 0 := Or.inl rfl
  have h2 : 0 < dC10.dividends.getLast?.getD 0 := by
    rw [show dC10.dividends.getLast?.getD 0 = 3/10 from rfl]
    norm_num
  have h3 : 200 ≤ dC10.closes.length := by
    rw [show dC10.closes = linList 100 1 200 from rfl, linList_length]
  have h4 : 0 < slope dC10.closes := by
    rw [show dC10.closes = linList 100 1 200 from rfl, slope_linList 100 1 (by norm_num)]
    norm_num
  have h5 : MIN_R_SQUARED ≤ rSquared dC10.closes := by
    rw [show dC10.closes = linList 100 1 200 from rfl,
      rSquared_linList 100 1 (by norm_num) (by norm_num), MIN_R_SQUARED]
    norm_num
  exact ⟨h1, h2, claim10_missing_yield ("W10") dC10 ("N/A") h1 h2 h3 h4 h5 rfl⟩

/-- C3 (spec-modelled): the market-cap floor and beta ceiling gates of the
spec, absent from src/analyzer.py, drop a symbol whose market cap is below
the floor or whose known beta is above the ceiling: no record is scored. -/
theorem claim3_cap_beta :
    ∀ (mc capFloor : ℚ) (beta : Option ℚ) (betaCeil : ℚ) (t : String) (d : TickerData),
      (mc < capFloor ∨ (∃ b, beta = some b ∧ betaCeil < b)) →
      gatedAnalyze mc capFloor beta betaCeil t d = none := by
  intro mc capFloor beta betaCeil t d h
  have hg : capBetaGate mc capFloor beta betaCeil = false := by
    rcases h with hmc | ⟨b, hb, hbc⟩
    · unfold capBetaGate
      rw [decide_eq_false (not_le.mpr hmc), Bool.false_and]
    · simp only [capBetaGate, hb]
      rw [decide_eq_false (not_le.mpr hbc), Bool.and_false]
  simp [gatedAnalyze, hg]

/-- C3 witness: a market cap of 0.5 billion under a 1 billion floor is
dropped. -/
theorem claim3_witness :
    ((5 : ℚ) * 10 ^ 8 < 10 ^ 9 ∨
      (∃ b, (none : Option ℚ) = some b ∧ (2 : ℚ) < b)) ∧
    gatedAnalyze (5 * 10 ^ 8) (10 ^ 9) none 2 ("GTE") dShort = none := by
  have h : (5 : ℚ) * 10 ^ 8 < 10 ^ 9 ∨
      (∃ b, (none : Option ℚ) = some b ∧ (2 : ℚ) < b) := Or.inl (by norm_num)
  exact ⟨h, claim3_cap_beta (5 * 10 ^ 8) (10 ^ 9) none 2 ("GTE") dShort h⟩

/-- C9 corrected: main never deduplicates: each occurrence of a symbol in
the resolved universe contributes its own record, so the claimed
uniqueness holds exactly when the resolved universe carries no duplicate
symbol: then no two output entries share a base symbol. -/
theorem claim9_unique :
    ∀ (fetch : String → TickerData) (tickers : List String),
      tickers.Nodup → ((mainData fetch tickers).map fun r => r.symbol).Nodup := by
  intro fetch tickers h
  have hperm := (mainData_perm fetch tickers).map fun r => r.symbol
  exact (List.Perm.nodup_iff hperm).mpr ((symbols_sublist fetch tickers).nodup h)

/-- C9 witness: a singleton universe gives duplicate-free output symbols. -/
theorem claim9_witness :
    (["AAA"] : List String).Nodup ∧
    ((mainData fetchDup (["AAA"])).map fun r => r.symbol).Nodup := by
  have h : (["AAA"] : List String).Nodup := by simp
  exact ⟨h, claim9_unique fetchDup (["AAA"]) h⟩

/-- C9 counterexample: a universe with the same base symbol twice yields
two entries with that symbol: the output is not duplicate-free. -/
theorem claim9_counterexample :
    ((mainData fetchDup (["AAA", "AAA"])).map fun r => r.symbol).count ("AAA") = 2 ∧
    ¬((mainData fetchDup (["AAA", "AAA"])).map fun r => r.symbol).Nodup := by
  have hfr : fetchResults fetchDup (["AAA", "AAA"]) =
      [mkRecord ("AAA") dC8none ("N/A"), mkRecord ("AAA") dC8none ("N/A")] := by
    simp [fetchResults, fetchDup, List.filterMap_cons, dC8none_eval]
  have hperm := (mainData_perm fetchDup (["AAA", "AAA"])).map fun r => r.symbol
  have hcount :
      ((mainData fetchDup (["AAA", "AAA"])).map fun r => r.symbol).count ("AAA") = 2 := by
    rw [hperm.count_eq ("AAA"), hfr]
    simp only [List.map_cons, List.map_nil, mkRecord_symbol]
    rfl
  refine ⟨hcount, fun hnd => ?_⟩
  have hle := List.nodup_iff_count_le_one.mp hnd ("AAA")
  rw [hcount] at hle
  omega

/-- C7 witness: the sanitizer statement applied at the NaN value. -/
theorem claim7_witness : hasNan (cleanNan JVal.nan) = false :=
  claim7_sanitize.1 JVal.nan

end AIDividends
